import Mathlib

/-!
Verification of the sequential batch image-rename pipeline
(`src/lib/lmstudio.ts` and the batch runner in `rename-images.tsx`).

The TypeScript source is shallowly embedded: pure string functions become
Lean functions over `List Char`, the filesystem becomes an association
list from paths to byte contents, and the network is an oracle value
describing the observed response. Machine effects (thrown exceptions)
become `Except` values; the unbounded probe loop of `getUniqueFilename`
is given explicit fuel, with `none` modelling divergence.
-/

namespace LmStudio

/-- Character class of the JavaScript regex `\s` restricted to the code
points that can actually appear in this pipeline (ASCII whitespace plus
the common Unicode spaces NBSP and BOM). -/
def isJsSpace (c : Char) : Bool :=
  c = ' ' || c = '\t' || c = '\n' || c = '\r' || c = '\x0b' ||
  c = '\x0c' || c = '\u00A0' || c = '\uFEFF'

/-- Characters kept by the first `replace` of `sanitizeFilename`:
the regex class `[a-zA-Z0-9 _-]`. -/
def isAllowedChar (c : Char) : Bool :=
  ('a' ≤ c && c ≤ 'z') || ('A' ≤ c && c ≤ 'Z') ||
  ('0' ≤ c && c ≤ '9') || c = ' ' || c = '_' || c = '-'

/-- Embedding of the second `replace` of `sanitizeFilename`,
`replace(/\s+/g, " ")`: every maximal run of whitespace becomes a single
space. -/
def collapseWs : List Char → List Char
  | [] => []
  | c :: cs =>
    if isJsSpace c then
      match cs with
      | [] => [' ']
      | c2 :: _ => if isJsSpace c2 then collapseWs cs else ' ' :: collapseWs cs
    else c :: collapseWs cs

/-- Removal of trailing whitespace, structurally recursive. -/
def dropTrailingWs : List Char → List Char
  | [] => []
  | c :: cs =>
    match dropTrailingWs cs with
    | [] => if isJsSpace c then [] else [c]
    | r => c :: r

/-- Embedding of JavaScript `String.prototype.trim`: strip whitespace
from both ends. -/
def trimChars (l : List Char) : List Char :=
  dropTrailingWs (l.dropWhile isJsSpace)

/-- Embedding of `String.prototype.trim` at the `String` level. -/
def jsTrim (s : String) : String := ⟨trimChars s.data⟩

/-- Embedding of `sanitizeFilename` from `src/lib/lmstudio.ts`:
strip characters outside `[a-zA-Z0-9 _-]`, collapse whitespace runs to a
single space, trim, then `substring(0, 100)`. -/
def sanitizeFilename (name : String) : String :=
  ⟨(trimChars (collapseWs (name.data.filter isAllowedChar))).take 100⟩

example : sanitizeFilename "Sunset!! @ the Beach..." = "Sunset the Beach" := by decide

example : sanitizeFilename "  hello   world  " = "hello world" := by decide

/-! Path helpers, embedding the Node `path` functions the source uses on
the plain absolute slash-separated paths this pipeline handles. -/

/-- Split a character list on a separator; mirrors `String.split` on one
character (the result always has at least one, possibly empty, group). -/
def splitOnChar (sep : Char) : List Char → List (List Char)
  | [] => [[]]
  | c :: cs =>
    match splitOnChar sep cs with
    | [] => [[c]]
    | g :: gs => if c = sep then [] :: g :: gs else (c :: g) :: gs

/-- Rejoin groups with a slash, inverse of `splitOnChar` at the slash. -/
def joinWithSlash : List (List Char) → List Char
  | [] => []
  | [g] => g
  | g :: gs => g ++ '/' :: joinWithSlash gs

/-- Embedding of `path.basename`: the part after the last slash. -/
def basename (p : String) : String :=
  ⟨(splitOnChar '/' p.data).getLastD []⟩

/-- Embedding of `path.dirname`: everything before the last slash, or
a dot when the path has no slash. -/
def dirname (p : String) : String :=
  match splitOnChar '/' p.data with
  | [] => "."
  | [_] => "."
  | g :: gs => ⟨joinWithSlash ((g :: gs).dropLast)⟩

/-- Embedding of `path.extname`: the suffix of the basename from its last
dot, or the empty string when there is no dot or the only dot is the
leading character. -/
def extname (p : String) : String :=
  let b := (basename p).data
  let afterDot := (b.reverse.takeWhile (fun c => !(c = '.'))).length
  if afterDot = b.length then ""
  else if b.length - afterDot - 1 = 0 then ""
  else ⟨b.drop (b.length - afterDot - 1)⟩

/-- Embedding of `path.join` for a directory and a relative file name. -/
def pathJoin (dir name : String) : String := dir ++ "/" ++ name

/-- ASCII lowercasing of one character, as `toLowerCase` acts on the
extension strings this pipeline produces. -/
def charToLower (c : Char) : Char :=
  if 'A' ≤ c && c ≤ 'Z' then Char.ofNat (c.toNat + 32) else c

/-- Embedding of `String.prototype.toLowerCase` on ASCII strings. -/
def toLower (s : String) : String := ⟨s.data.map charToLower⟩

example : basename "/d/cat.jpg" = "cat.jpg" := by decide
example : dirname "/d/cat.jpg" = "/d" := by decide
example : extname "/d/cat.JPG" = ".JPG" := by decide
example : toLower ".JPG" = ".jpg" := by decide
example : extname "/d/noext" = "" := by decide

/-! Decimal rendering of the probe counter, embedding the JavaScript
template interpolation of a number. -/

/-- Digit character for a value below ten. -/
def digitChar (d : Nat) : Char := Char.ofNat (48 + d)

/-- Fuelled accumulator loop producing decimal digits, most significant
first. -/
def natToCharsAux : Nat → Nat → List Char → List Char
  | 0, _, acc => acc
  | fuel + 1, n, acc =>
    let acc₁ := digitChar (n % 10) :: acc
    if n / 10 = 0 then acc₁ else natToCharsAux fuel (n / 10) acc₁

/-- Decimal rendering of a natural number as characters. -/
def natToChars (n : Nat) : List Char := natToCharsAux (n + 1) n []

/-- Decimal rendering of a natural number as a string, as the template
string of the source renders the counter. -/
def natToString (n : Nat) : String := ⟨natToChars n⟩

example : natToString 0 = "0" := by decide
example : natToString 12 = "12" := by decide

/-! Filesystem model: an association list from absolute paths to byte
contents (contents abstracted to a natural number). -/

/-- Filesystem state: the finite set of existing files with contents. -/
abbrev Fs := List (String × Nat)

/-- Embedding of `fs.existsSync`. -/
def Fs.existsb (fs : Fs) (p : String) : Bool :=
  fs.any (fun e => e.1 = p)

/-- Writing a file, as the conversion tool does with its output path. -/
def Fs.write (fs : Fs) (p : String) (b : Nat) : Fs := (p, b) :: fs

/-- Embedding of `fs.unlinkSync`: remove every entry at the path. -/
def Fs.remove (fs : Fs) (p : String) : Fs :=
  fs.filter (fun e => !(e.1 = p))

/-- Embedding of a successful `fs.renameSync`: the entry at the old path
now sits at the new path, contents untouched. -/
def Fs.rename (fs : Fs) (old new : String) : Fs :=
  fs.map (fun e => if e.1 = old then (new, e.2) else e)

/-! Collision resolver, embedding `getUniqueFilename`. -/

/-- Candidate path number `n` probed by `getUniqueFilename`: the plain
`dir/baseName.ext` first, then `dir/baseName_n.ext`. -/
def candidate (dir baseName ext : String) : Nat → String
  | 0 => pathJoin dir (baseName ++ ext)
  | n + 1 => pathJoin dir (baseName ++ "_" ++ natToString (n + 1) ++ ext)

/-- Fuelled embedding of the `while (fs.existsSync(candidate))` loop of
`getUniqueFilename`, starting at candidate `n`; `none` models running
out of fuel, that is, divergence of the unbounded source loop. -/
def uniqueLoop (ex : String → Bool) (dir baseName ext : String) :
    Nat → Nat → Option String
  | 0, _ => none
  | fuel + 1, n =>
    let c := candidate dir baseName ext n
    if ex c then uniqueLoop ex dir baseName ext fuel (n + 1) else some c

/-- Embedding of `getUniqueFilename` with explicit fuel; the existence
check is abstracted to a predicate so the function can be stated against
any filesystem state. -/
def getUniqueFilename (ex : String → Bool) (dir baseName ext : String)
    (fuel : Nat) : Option String :=
  uniqueLoop ex dir baseName ext fuel 0

example :
    getUniqueFilename
      (Fs.existsb [("/d/cat.jpg", 1), ("/d/cat_1.jpg", 2)]) "/d" "cat" ".jpg" 5
      = some "/d/cat_2.jpg" := by decide

/-! Vision API client. The network is an oracle: a value describing what
the single `fetch` of each operation observed. -/

/-- One choice of the chat completion response; `content` is `none` when
the optional chain `choices?.[0]?.message?.content` is absent. -/
structure ChatChoice where
  content : Option String
  deriving Repr, DecidableEq

/-- Parsed JSON body of the chat completion response. -/
structure ChatBody where
  errorMsg : Option String
  choices : List ChatChoice
  deriving Repr, DecidableEq

/-- Observed outcome of the `fetch` to `/v1/chat/completions`: either the
promise rejected with a message, or a response arrived with its `ok`
flag, its status text and a parsed body. -/
inductive FetchOutcome where
  | netFail (msg : String)
  | resp (ok : Bool) (statusText : String) (body : ChatBody)
  deriving Repr, DecidableEq

/-- First choice content of a chat body, embedding the optional chain
`data.choices?.[0]?.message?.content`. -/
def firstContent (body : ChatBody) : Option String :=
  body.choices.head?.bind fun c => c.content

/-- Embedding of the response handling of `getImageName` (everything
after the preprocessing step): the non-2xx check, the body error check,
the optional chain to the first choice content, the trim, and the empty
check. An `Except.error` is a thrown exception. -/
def getImageNameFromResponse : FetchOutcome → Except String String
  | .netFail msg => .error msg
  | .resp ok statusText body =>
    if !ok then .error ("API request failed: " ++ statusText)
    else
      match body.errorMsg with
      | some m => .error ("LM Studio error: " ++ m)
      | none =>
        match (firstContent body).map jsTrim with
        | none => .error "No name suggestion returned"
        | some t =>
          if t = "" then .error "No name suggestion returned" else .ok t

/-- Observed outcome of the reachability probe `fetch`: the request timed
out, the transport failed, or a response with a status code arrived. -/
inductive ProbeOutcome where
  | timeout
  | netError (msg : String)
  | resp (status : Nat)
  deriving Repr, DecidableEq

/-- Embedding of `checkServerConnection`: the `try` returns
`response.ok` (status in the 2xx range) and the `catch` maps a timeout
or transport failure to `false`. Total by construction, so the embedded
function never throws. -/
def checkServerConnection : ProbeOutcome → Bool
  | .timeout => false
  | .netError _ => false
  | .resp status => 200 ≤ status && status < 300

/-! Image preprocessor, embedding `preprocessImage`. -/

/-- Observed outcome of the `sips` invocation: conversion succeeded and
wrote the scratch file, or the process failed, possibly leaving stray
output bytes behind. -/
inductive ConvResult where
  | ok (bytes : Nat)
  | fail (msg : String) (leftover : Option Nat)
  deriving Repr, DecidableEq

/-- Embedding of `preprocessImage`: run the conversion into the scratch
path, read it back (the read may itself throw, `readErr`), and in every
case execute the `finally` block that unlinks the scratch path when it
exists. Returns the thrown message or the bytes, with the final
filesystem. -/
def preprocessImage (fs : Fs) (tmpFile : String) (conv : ConvResult)
    (readErr : Option String) : Except String Nat × Fs :=
  match conv with
  | .fail msg leftover =>
    let fs₁ := match leftover with
      | some b => Fs.write fs tmpFile b
      | none => fs
    (.error msg, if Fs.existsb fs₁ tmpFile then Fs.remove fs₁ tmpFile else fs₁)
  | .ok bytes =>
    let fs₁ := Fs.write fs tmpFile bytes
    let res : Except String Nat := match readErr with
      | some m => .error m
      | none => .ok bytes
    (res, if Fs.existsb fs₁ tmpFile then Fs.remove fs₁ tmpFile else fs₁)

/-! Rename orchestrator, embedding `renameImage`. -/

/-- Embedding of the `RenameResult` record of the source. -/
structure RenameResult where
  success : Bool
  oldName : String
  newName : Option String
  error : Option String
  deriving Repr, DecidableEq

/-- Embedding of `renameImage`. The awaited `getImageName` call is the
oracle `nameRes` (`Except.error` is a thrown exception reaching the
`catch`; the scratch-file effects of preprocessing, confined to the
temporary directory, are abstracted into it). `renameErr` tells whether `fs.renameSync`
would throw. `none` models divergence of the unbounded collision loop. -/
def renameImage (fs : Fs) (imagePath : String)
    (nameRes : Except String String) (renameErr : Option String)
    (fuel : Nat) : Option (RenameResult × Fs) :=
  let oldName := basename imagePath
  let dir := dirname imagePath
  let ext := toLower (extname imagePath)
  match nameRes with
  | .error msg =>
    some ({ success := false, oldName, newName := none, error := some msg }, fs)
  | .ok suggestedName =>
    let cleanName := sanitizeFilename suggestedName
    if cleanName = "" then
      some ({ success := false, oldName, newName := none,
              error := some "Empty name returned" }, fs)
    else
      match getUniqueFilename (Fs.existsb fs) dir cleanName ext fuel with
      | none => none
      | some newPath =>
        let newName := basename newPath
        if oldName = newName then
          some ({ success := true, oldName, newName := some newName,
                  error := some "Name unchanged" }, fs)
        else
          match renameErr with
          | some msg =>
            some ({ success := false, oldName, newName := none,
                    error := some msg }, fs)
          | none =>
            some ({ success := true, oldName, newName := some newName,
                    error := none }, Fs.rename fs imagePath newPath)

example :
    renameImage [("/d/cat.jpg", 7)] "/d/cat.jpg" (.ok "cat") none 3
      = some ({ success := true, oldName := "cat.jpg",
                newName := some "cat_1.jpg", error := none },
              [("/d/cat_1.jpg", 7)]) := by decide

/-! Batch runner, embedding `processImages` of `rename-images.tsx`. -/

/-- Status of one list entry, as in the `ProcessingResult` union. -/
inductive Status where
  | pending
  | processing
  | success
  | error
  | skipped
  deriving Repr, DecidableEq

/-- Embedding of the `ProcessingResult` record of the presentation
layer. -/
structure ProcessingResult where
  oldName : String
  newName : Option String
  status : Status
  error : Option String
  deriving Repr, DecidableEq

/-- One unit of batch work: the image path together with the oracle
values its `renameImage` call will observe. -/
structure BatchTask where
  path : String
  nameRes : Except String String
  renameErr : Option String
  deriving Repr

/-- Embedding of the `ImageFile.name` computation
`item.path.split("/").pop() || item.path`. -/
def imageName (p : String) : String :=
  let b := basename p
  if b = "" then p else b

/-- Initial entry of the results array: `status: "pending"`. -/
def initPending (t : BatchTask) : ProcessingResult :=
  { oldName := imageName t.path, newName := none,
    status := .pending, error := none }

/-- Spread update `{ ...updated[i], status: "processing" }`. -/
def markProcessing (r : ProcessingResult) : ProcessingResult :=
  { r with status := .processing }

/-- Terminal list entry built from a `RenameResult`, following the
success, skipped and error branches of the update in `processImages`. -/
def toProcessing (r : RenameResult) : ProcessingResult :=
  if r.success then
    if r.error = some "Name unchanged" then
      { oldName := r.oldName, newName := r.newName,
        status := .skipped, error := some "Name unchanged" }
    else
      { oldName := r.oldName, newName := r.newName,
        status := .success, error := none }
  else
    { oldName := r.oldName, newName := none,
      status := .error, error := r.error }

/-- Embedding of the `for` loop of `processImages`: at index `i` the
entry is first overwritten with a processing marker, then with the
terminal outcome of `renameImage`; the success counter is incremented
exactly when `result.success` holds. `none` models a diverging
collision loop stalling the batch. -/
def processLoop (fuel : Nat) :
    List BatchTask → Nat → List ProcessingResult → Fs → Nat →
    Option (List ProcessingResult × Fs × Nat)
  | [], _, results, fs, cnt => some (results, fs, cnt)
  | t :: ts, i, results, fs, cnt =>
    let results₁ := results.set i (markProcessing (results.getD i (initPending t)))
    match renameImage fs t.path t.nameRes t.renameErr fuel with
    | none => none
    | some (res, fs₁) =>
      processLoop fuel ts (i + 1) (results₁.set i (toProcessing res)) fs₁
        (cnt + if res.success then 1 else 0)

/-- Embedding of `processImages`: results start as one pending entry per
image, then the loop runs from index zero; the final triple carries the
results list, the filesystem and the success count shown in the
completion toast together with the total `images.length`. -/
def processImages (fuel : Nat) (tasks : List BatchTask) (fs : Fs) :
    Option (List ProcessingResult × Fs × Nat) :=
  processLoop fuel tasks 0 (tasks.map initPending) fs 0

/-- Sequential reference fold: the per-task outcomes of the batch, each
`renameImage` run on the filesystem left by the previous task. -/
def runTasks (fuel : Nat) : List BatchTask → Fs → Option (List RenameResult × Fs)
  | [], fs => some ([], fs)
  | t :: ts, fs =>
    match renameImage fs t.path t.nameRes t.renameErr fuel with
    | none => none
    | some (res, fs₁) =>
      match runTasks fuel ts fs₁ with
      | none => none
      | some (rs, fs₂) => some (res :: rs, fs₂)

/-- Number of outcomes reported with `success = true`. -/
def countSuccess (rs : List RenameResult) : Nat :=
  (rs.filter (fun r => r.success)).length

/-- Pairwise property: no two consecutive space characters. -/
def noDoubleSpaceB : List Char → Bool
  | [] => true
  | [_] => true
  | c :: c2 :: cs => !(c = ' ' && c2 = ' ') && noDoubleSpaceB (c2 :: cs)

/-- Accumulated overwriting of terminal outcomes into the results array,
one slot per processed task starting at the given index. -/
def overlay : List ProcessingResult → Nat → List RenameResult → List ProcessingResult
  | base, _, [] => base
  | base, i, r :: rs => overlay (base.set i (toProcessing r)) (i + 1) rs

/-! Supporting lemmas about the filesystem model. -/

theorem Fs.existsb_remove (fs : Fs) (p : String) :
    Fs.existsb (Fs.remove fs p) p = false := by
  simp [Fs.existsb, Fs.remove, List.any_eq_true]

theorem Fs.existsb_write (fs : Fs) (p : String) (b : Nat) :
    Fs.existsb (Fs.write fs p b) p = true := by
  simp [Fs.write, Fs.existsb]

/-! Properties of `checkServerConnection` (claim C7). -/

/-- C7: `checkServerConnection` never raises: for every observed probe
outcome it returns a boolean, and it returns `true` exactly when a
response with a 2xx status arrived within the timeout; any timeout,
transport failure or non-2xx response yields `false`. -/
theorem checkServerConnection_true_iff_2xx (o : ProbeOutcome) :
    checkServerConnection o = true ↔
      ∃ s, o = ProbeOutcome.resp s ∧ 200 ≤ s ∧ s < 300 := by
  cases o with
  | timeout => simp [checkServerConnection]
  | netError m => simp [checkServerConnection]
  | resp s =>
    simp only [checkServerConnection, Bool.and_eq_true, decide_eq_true_eq]
    constructor
    · rintro ⟨h₁, h₂⟩
      exact ⟨s, rfl, h₁, h₂⟩
    · rintro ⟨s', heq, h₁, h₂⟩
      cases heq
      exact ⟨h₁, h₂⟩

/-! Properties of `preprocessImage` (claim C9). -/

/-- C9: every run of the image preprocessor removes its scratch file on
every exit path: whether the conversion succeeds, the conversion fails
(with or without stray output left behind), or reading the result
throws, the scratch path does not exist in the filesystem afterwards. -/
theorem preprocessImage_removes_scratch (fs : Fs) (tmpFile : String)
    (conv : ConvResult) (readErr : Option String) :
    Fs.existsb (preprocessImage fs tmpFile conv readErr).2 tmpFile = false := by
  cases conv with
  | ok bytes =>
    simp only [preprocessImage]
    rw [if_pos (Fs.existsb_write fs tmpFile bytes)]
    exact Fs.existsb_remove _ tmpFile
  | fail msg leftover =>
    cases leftover with
    | some b =>
      simp only [preprocessImage]
      rw [if_pos (Fs.existsb_write fs tmpFile b)]
      exact Fs.existsb_remove _ tmpFile
    | none =>
      simp only [preprocessImage]
      by_cases h : Fs.existsb fs tmpFile
      · rw [if_pos h]
        exact Fs.existsb_remove _ tmpFile
      · simp [h]

/-! Supporting lemmas about the collision-resolution loop. -/

theorem uniqueLoop_some_not_exists (ex : String → Bool) (dir base ext : String) :
    ∀ fuel n r, uniqueLoop ex dir base ext fuel n = some r → ex r = false := by
  intro fuel
  induction fuel with
  | zero => intro n r h; simp [uniqueLoop] at h
  | succ fuel ih =>
    intro n r h
    simp only [uniqueLoop] at h
    by_cases hx : ex (candidate dir base ext n) = true
    · rw [if_pos hx] at h
      exact ih _ _ h
    · rw [if_neg hx] at h
      cases h
      simpa using hx

theorem uniqueLoop_first_fit (ex : String → Bool) (dir base ext : String) :
    ∀ fuel n k, n ≤ k → k - n < fuel →
      ex (candidate dir base ext k) = false →
      (∀ j, n ≤ j → j < k → ex (candidate dir base ext j) = true) →
      uniqueLoop ex dir base ext fuel n = some (candidate dir base ext k) := by
  intro fuel
  induction fuel with
  | zero => intro n k hnk hfuel _ _; omega
  | succ fuel ih =>
    intro n k hnk hfuel hfree hbusy
    simp only [uniqueLoop]
    rcases Nat.eq_or_lt_of_le hnk with heq | hlt
    · subst heq
      rw [if_neg (by simp [hfree])]
    · rw [if_pos (hbusy n le_rfl hlt)]
      exact ih (n + 1) k hlt (by omega) hfree fun j hj hjk => hbusy j (by omega) hjk

theorem uniqueLoop_none_of_all_exist (ex : String → Bool) (dir base ext : String)
    (hall : ∀ n, ex (candidate dir base ext n) = true) :
    ∀ fuel n, uniqueLoop ex dir base ext fuel n = none := by
  intro fuel
  induction fuel with
  | zero => intro n; rfl
  | succ fuel ih =>
    intro n
    simp only [uniqueLoop]
    rw [if_pos (hall n)]
    exact ih (n + 1)

theorem uniqueLoop_some_of_free (ex : String → Bool) (dir base ext : String)
    (n : Nat) (hfree : ex (candidate dir base ext n) = false) :
    ∃ r, uniqueLoop ex dir base ext (n + 1) 0 = some r := by
  have hex : ∃ j, ex (candidate dir base ext j) = false := ⟨n, hfree⟩
  set k := Nat.find hex with hk
  have hkfree : ex (candidate dir base ext k) = false := Nat.find_spec hex
  have hkn : k ≤ n := Nat.find_min' hex hfree
  have hbusy : ∀ j, j < k → ex (candidate dir base ext j) = true := by
    intro j hj
    have := Nat.find_min hex hj
    simpa using this
  exact ⟨candidate dir base ext k,
    uniqueLoop_first_fit ex dir base ext (n + 1) 0 k (Nat.zero_le k)
      (by omega) hkfree fun j _ hjk => hbusy j hjk⟩

/-! Lemmas about the decimal rendering of the probe counter, used to
show that the candidate paths grow without bound. -/

theorem natToCharsAux_append : ∀ (fuel n : Nat) (acc : List Char),
    natToCharsAux fuel n acc = natToCharsAux fuel n [] ++ acc := by
  intro fuel
  induction fuel with
  | zero => intro n acc; simp [natToCharsAux]
  | succ fuel ih =>
    intro n acc
    simp only [natToCharsAux]
    by_cases h10 : n / 10 = 0
    · simp [h10]
    · simp only [h10, if_neg, if_false]
      rw [ih (n / 10) (digitChar (n % 10) :: acc),
        ih (n / 10) [digitChar (n % 10)]]
      simp

theorem natToCharsAux_fuel_irrel : ∀ (n fuel : Nat) (acc : List Char), n < fuel →
    natToCharsAux fuel n acc = natToCharsAux (n + 1) n acc := by
  intro n
  induction n using Nat.strong_induction_on with
  | _ n ih =>
    intro fuel acc hf
    cases fuel with
    | zero => omega
    | succ f =>
      simp only [natToCharsAux]
      by_cases h10 : n / 10 = 0
      · simp [h10]
      · simp only [h10, if_false]
        have hn1 : 1 ≤ n := by
          by_contra hn
          have : n = 0 := by omega
          subst this
          simp at h10
        have hdiv : n / 10 < n := Nat.div_lt_self (by omega) (by omega)
        rw [ih (n / 10) hdiv f (digitChar (n % 10) :: acc) (by omega)]
        rw [ih (n / 10) hdiv n (digitChar (n % 10) :: acc) (by omega)]

theorem natToChars_decomp (n : Nat) (h10 : ¬ n / 10 = 0) :
    natToChars n = natToChars (n / 10) ++ [digitChar (n % 10)] := by
  have hn1 : 1 ≤ n := by
    by_contra hn
    have : n = 0 := by omega
    subst this
    simp at h10
  have hdiv : n / 10 < n := Nat.div_lt_self (by omega) (by omega)
  show natToCharsAux (n + 1) n [] = _
  simp only [natToCharsAux, h10, if_false]
  rw [natToCharsAux_fuel_irrel (n / 10) n [digitChar (n % 10)] hdiv]
  rw [natToCharsAux_append (n / 10 + 1) (n / 10) [digitChar (n % 10)]]
  rfl

theorem natToChars_pow_length : ∀ k : Nat, k + 1 ≤ (natToChars (10 ^ k)).length := by
  intro k
  induction k with
  | zero => decide
  | succ k ih =>
    have hdiv : 10 ^ (k + 1) / 10 = 10 ^ k := by
      rw [pow_succ]
      exact Nat.mul_div_cancel _ (by omega)
    have hne : ¬ 10 ^ (k + 1) / 10 = 0 := by
      rw [hdiv]
      exact Nat.pos_iff_ne_zero.mp (pow_pos (by omega) k)
    rw [natToChars_decomp (10 ^ (k + 1)) hne, hdiv]
    simp only [List.length_append, List.length_cons, List.length_nil]
    omega

theorem existsb_length_le : ∀ (fs : Fs) (p : String),
    Fs.existsb fs p = true →
    p.length ≤ (fs.map (fun x => x.1.length)).foldr Nat.max 0 := by
  intro fs
  induction fs with
  | nil => intro p h; simp [Fs.existsb] at h
  | cons e fs ih =>
    intro p h
    simp only [Fs.existsb, List.any_cons, Bool.or_eq_true] at h
    simp only [List.map_cons, List.foldr_cons]
    rcases h with h | h
    · have : e.1 = p := by simpa using h
      rw [← this]
      exact Nat.le_max_left _ _
    · exact le_trans (ih p h) (Nat.le_max_right _ _)

theorem candidate_succ_length (dir base ext : String) (n : Nat) :
    (candidate dir base ext (n + 1)).length =
      dir.length + 1 + base.length + 1 + (natToChars (n + 1)).length
        + ext.length := by
  simp only [candidate, pathJoin, String.length_append]
  have h1 : ("/" : String).length = 1 := rfl
  have h2 : ("_" : String).length = 1 := rfl
  have h3 : (natToString (n + 1)).length = (natToChars (n + 1)).length := rfl
  rw [h1, h2, h3]
  omega

theorem finite_fs_free_candidate (fs : Fs) (dir base ext : String) :
    ∃ n, Fs.existsb fs (candidate dir base ext n) = false := by
  set M := (fs.map (fun x => x.1.length)).foldr Nat.max 0 with hM
  have hpow : 1 ≤ 10 ^ M := Nat.one_le_pow M 10 (by omega)
  refine ⟨10 ^ M, ?_⟩
  by_contra hcon
  have hex : Fs.existsb fs (candidate dir base ext (10 ^ M)) = true := by
    simpa using hcon
  have hle := existsb_length_le fs _ hex
  rw [← hM] at hle
  have hshape : 10 ^ M = (10 ^ M - 1) + 1 := by omega
  rw [hshape, candidate_succ_length] at hle
  rw [← hshape] at hle
  have hbig := natToChars_pow_length M
  omega

/-! Claim C5: first-fit collision resolution. -/

/-- C5: when `dir/baseName.ext` does not exist the resolver returns it;
otherwise it returns `dir/baseName_k.ext` for the smallest `k` whose
candidate does not exist, probing in increasing order; and any returned
path never refers to an existing file. Stated for the first free
candidate index `k` with enough fuel for the source loop to reach it. -/
theorem getUniqueFilename_first_fit (ex : String → Bool) (dir base ext : String)
    (k fuel : Nat) (hfree : ex (candidate dir base ext k) = false)
    (hbusy : ∀ j, j < k → ex (candidate dir base ext j) = true)
    (hfuel : k < fuel) :
    getUniqueFilename ex dir base ext fuel = some (candidate dir base ext k)
    ∧ ∀ fuel₂ r, getUniqueFilename ex dir base ext fuel₂ = some r → ex r = false := by
  constructor
  · exact uniqueLoop_first_fit ex dir base ext fuel 0 k (Nat.zero_le k)
      (by omega) hfree fun j _ hjk => hbusy j hjk
  · intro fuel₂ r h
    exact uniqueLoop_some_not_exists ex dir base ext fuel₂ 0 r h

/-- Witness for C5 at the example of the specification: with
`dir/cat.jpg` and `dir/cat_1.jpg` present, the resolver returns
`dir/cat_2.jpg`. -/
theorem getUniqueFilename_first_fit_witness :
    getUniqueFilename
      (Fs.existsb [("/d/cat.jpg", 1), ("/d/cat_1.jpg", 2)]) "/d" "cat" ".jpg" 3
      = some "/d/cat_2.jpg" := by
  have h := getUniqueFilename_first_fit
    (Fs.existsb [("/d/cat.jpg", 1), ("/d/cat_1.jpg", 2)]) "/d" "cat" ".jpg"
    2 3 (by decide) (by decide) (by decide)
  exact h.1.trans (by decide)

/-! Claim C10: termination behaviour of the probe loop. -/

/-- C10: the resolver terminates whenever some candidate path does not
exist, with fuel beyond that candidate index — in particular on any
finite filesystem state, where the unbounded decimal counter eventually
produces a candidate longer than every existing path; and the counter
has no upper bound, so when every candidate exists the loop never
returns, for any amount of fuel and from any starting counter. -/
theorem getUniqueFilename_termination (ex : String → Bool) (dir base ext : String) :
    (∀ n, ex (candidate dir base ext n) = false →
      ∃ r, getUniqueFilename ex dir base ext (n + 1) = some r)
    ∧ ((∀ n, ex (candidate dir base ext n) = true) →
      ∀ fuel n, uniqueLoop ex dir base ext fuel n = none)
    ∧ (∀ fs : Fs, ∃ fuel r,
        getUniqueFilename (Fs.existsb fs) dir base ext fuel = some r) := by
  refine ⟨?_, ?_, ?_⟩
  · intro n hfree
    exact uniqueLoop_some_of_free ex dir base ext n hfree
  · intro hall fuel n
    exact uniqueLoop_none_of_all_exist ex dir base ext hall fuel n
  · intro fs
    obtain ⟨n, hfree⟩ := finite_fs_free_candidate fs dir base ext
    exact ⟨n + 1, uniqueLoop_some_of_free (Fs.existsb fs) dir base ext n hfree⟩

/-- Witness for C10: a concrete free candidate gives termination, a
filesystem where every path exists makes the loop return nothing at the
fuel value shown here, and a concrete finite filesystem always admits a
terminating fuel. -/
theorem getUniqueFilename_termination_witness :
    (∃ r, getUniqueFilename (Fs.existsb [("/d/cat.jpg", 1)]) "/d" "cat" ".jpg" 2
      = some r)
    ∧ uniqueLoop (fun _ => true) "/d" "cat" ".jpg" 9 0 = none
    ∧ (∃ fuel r,
        getUniqueFilename (Fs.existsb [("/d/cat.jpg", 1)]) "/d" "cat" ".jpg" fuel
          = some r) := by
  refine ⟨?_, ?_, ?_⟩
  · exact (getUniqueFilename_termination
      (Fs.existsb [("/d/cat.jpg", 1)]) "/d" "cat" ".jpg").1 1 (by decide)
  · exact (getUniqueFilename_termination (fun _ => true) "/d" "cat" ".jpg").2.1
      (fun _ => rfl) 9 0
  · exact (getUniqueFilename_termination
      (Fs.existsb [("/d/cat.jpg", 1)]) "/d" "cat" ".jpg").2.2 [("/d/cat.jpg", 1)]

/-! Claim C6: failure characterization of the suggestion request. -/

theorem getResp_ok_none_eq (st : String) (body : ChatBody)
    (herr : body.errorMsg = none) :
    getImageNameFromResponse (.resp true st body) =
      (match (firstContent body).map jsTrim with
       | none => Except.error "No name suggestion returned"
       | some t =>
         if t = "" then Except.error "No name suggestion returned"
         else Except.ok t) := by
  have h1 : getImageNameFromResponse (.resp true st body) =
      (match body.errorMsg with
       | some m => Except.error ("LM Studio error: " ++ m)
       | none =>
         match (firstContent body).map jsTrim with
         | none => Except.error "No name suggestion returned"
         | some t =>
           if t = "" then Except.error "No name suggestion returned"
           else Except.ok t) := rfl
  rw [h1, herr]

/-- C6: the suggestion request fails exactly when the call itself fails,
the response is not 2xx, the body carries a server-reported error, or
the first choice content is absent or trims to the empty string; on
success it returns exactly the trimmed suggestion text, with no
sanitization applied. -/
theorem getImageName_response_spec (fr : FetchOutcome) :
    ((∃ e, getImageNameFromResponse fr = .error e) ↔
      ((∃ m, fr = .netFail m) ∨
       (∃ st body, fr = .resp false st body) ∨
       (∃ st body, fr = .resp true st body ∧ body.errorMsg ≠ none) ∨
       (∃ st body, fr = .resp true st body ∧ body.errorMsg = none ∧
         (firstContent body = none ∨
          ∃ c, firstContent body = some c ∧ jsTrim c = ""))))
    ∧ (∀ s, getImageNameFromResponse fr = .ok s →
        ∃ st body c, fr = .resp true st body ∧ firstContent body = some c ∧
          s = jsTrim c) := by
  cases fr with
  | netFail m =>
    refine ⟨iff_of_true ⟨m, rfl⟩ (Or.inl ⟨m, rfl⟩), ?_⟩
    intro s h
    simp [getImageNameFromResponse] at h
  | resp ok st body =>
    cases ok with
    | false =>
      refine ⟨iff_of_true ⟨"API request failed: " ++ st, rfl⟩
        (Or.inr (Or.inl ⟨st, body, rfl⟩)), ?_⟩
      intro s h
      simp [getImageNameFromResponse] at h
    | true =>
      cases herr : body.errorMsg with
      | some m =>
        have he : getImageNameFromResponse (.resp true st body) =
            .error ("LM Studio error: " ++ m) := by
          have h1 : getImageNameFromResponse (.resp true st body) =
              (match body.errorMsg with
               | some m0 => Except.error ("LM Studio error: " ++ m0)
               | none =>
                 match (firstContent body).map jsTrim with
                 | none => Except.error "No name suggestion returned"
                 | some t =>
                   if t = "" then Except.error "No name suggestion returned"
                   else Except.ok t) := rfl
          rw [h1, herr]
        refine ⟨iff_of_true ⟨_, he⟩
          (Or.inr (Or.inr (Or.inl ⟨st, body, rfl, by simp [herr]⟩))), ?_⟩
        intro s h
        rw [he] at h
        simp at h
      | none =>
        have he := getResp_ok_none_eq st body herr
        cases hc : firstContent body with
        | none =>
          rw [hc] at he
          simp only [Option.map_none'] at he
          refine ⟨iff_of_true ⟨_, he⟩
            (Or.inr (Or.inr (Or.inr ⟨st, body, rfl, herr, Or.inl hc⟩))), ?_⟩
          intro s h
          rw [he] at h
          simp at h
        | some c =>
          rw [hc] at he
          simp only [Option.map_some'] at he
          by_cases ht : jsTrim c = ""
          · rw [if_pos ht] at he
            refine ⟨iff_of_true ⟨_, he⟩
              (Or.inr (Or.inr (Or.inr
                ⟨st, body, rfl, herr, Or.inr ⟨c, hc, ht⟩⟩))), ?_⟩
            intro s h
            rw [he] at h
            simp at h
          · rw [if_neg ht] at he
            constructor
            · constructor
              · rintro ⟨e, hee⟩
                rw [he] at hee
                simp at hee
              · rintro (⟨m, hm⟩ | ⟨st₂, b₂, hb⟩ | ⟨st₂, b₂, hb, hbe⟩ |
                  ⟨st₂, b₂, hb, hbe, hcc⟩)
                · simp at hm
                · simp at hb
                · injection hb with hok hst hbody
                  exact absurd (hbody ▸ herr) hbe
                · injection hb with hok hst hbody
                  subst hbody
                  rcases hcc with hnone | ⟨c₂, hc₂, ht₂⟩
                  · rw [hc] at hnone
                    simp at hnone
                  · rw [hc] at hc₂
                    injection hc₂ with hcc₂
                    exact absurd (hcc₂ ▸ ht₂) ht
            · intro s h
              rw [he] at h
              injection h with hs
              exact ⟨st, body, c, rfl, hc, hs.symm⟩

/-- Witness for C6 at a concrete response: a body whose first choice
holds padded text yields exactly the trimmed suggestion. -/
theorem getImageName_response_spec_witness :
    ∃ st body c,
      FetchOutcome.resp true "OK" ⟨none, [⟨some "  red barn  "⟩]⟩
        = FetchOutcome.resp true st body ∧ firstContent body = some c ∧
      "red barn" = jsTrim c :=
  (getImageName_response_spec
    (.resp true "OK" ⟨none, [⟨some "  red barn  "⟩]⟩)).2 "red barn" rfl

/-! Claim C4: error handling and frame property of the orchestrator. -/

/-- C4: `renameImage` never propagates an exception: a failure of the
preprocessing or model call (a thrown `nameRes`), an empty sanitized
name, or a throwing rename all become a returned result with
`success = false` and an error message; and whenever the returned result
has `success = false` the filesystem is completely unchanged, so the
original file still exists at its path with its content. The only
filesystem mutation ever performed is the successful rename of the
original file. -/
theorem renameImage_error_handling (fs : Fs) (p : String)
    (nameRes : Except String String) (renameErr : Option String) (fuel : Nat) :
    (∀ res fs₁, renameImage fs p nameRes renameErr fuel = some (res, fs₁) →
      res.success = false → fs₁ = fs ∧ res.error.isSome = true)
    ∧ (∀ m, nameRes = .error m →
        renameImage fs p nameRes renameErr fuel =
          some ({ success := false, oldName := basename p, newName := none,
                  error := some m }, fs))
    ∧ (∀ res fs₁, renameImage fs p nameRes renameErr fuel = some (res, fs₁) →
        fs₁ ≠ fs → res.success = true ∧ res.error = none ∧
          ∃ newPath, res.newName = some (basename newPath) ∧
            fs₁ = Fs.rename fs p newPath) := by
  refine ⟨?_, ?_, ?_⟩
  · intro res fs₁ h hfail
    simp only [renameImage] at h
    split at h
    · rw [Option.some.injEq, Prod.mk.injEq] at h
      obtain ⟨hres, hfs⟩ := h
      exact ⟨hfs.symm, by rw [← hres]; rfl⟩
    · split at h
      · rw [Option.some.injEq, Prod.mk.injEq] at h
        obtain ⟨hres, hfs⟩ := h
        exact ⟨hfs.symm, by rw [← hres]; rfl⟩
      · split at h
        · exact absurd h (by simp)
        · split at h
          · rw [Option.some.injEq, Prod.mk.injEq] at h
            obtain ⟨hres, hfs⟩ := h
            rw [← hres] at hfail
            simp at hfail
          · split at h
            · rw [Option.some.injEq, Prod.mk.injEq] at h
              obtain ⟨hres, hfs⟩ := h
              exact ⟨hfs.symm, by rw [← hres]; rfl⟩
            · rw [Option.some.injEq, Prod.mk.injEq] at h
              obtain ⟨hres, hfs⟩ := h
              rw [← hres] at hfail
              simp at hfail
  · intro m hm
    subst hm
    rfl
  · intro res fs₁ h hchange
    simp only [renameImage] at h
    split at h
    · rw [Option.some.injEq, Prod.mk.injEq] at h
      exact absurd h.2.symm hchange
    · split at h
      · rw [Option.some.injEq, Prod.mk.injEq] at h
        exact absurd h.2.symm hchange
      · split at h
        · exact absurd h (by simp)
        · split at h
          · rw [Option.some.injEq, Prod.mk.injEq] at h
            exact absurd h.2.symm hchange
          · split at h
            · rw [Option.some.injEq, Prod.mk.injEq] at h
              exact absurd h.2.symm hchange
            · rw [Option.some.injEq, Prod.mk.injEq] at h
              obtain ⟨hres, hfs⟩ := h
              refine ⟨by rw [← hres], by rw [← hres], ?_⟩
              rename_i newPath _ _ _
              exact ⟨newPath, by rw [← hres], hfs.symm⟩

/-- Witness for C4: a thrown `NetworkError` from the model call becomes
a returned failure with the message preserved and the filesystem intact,
and that failing outcome indeed reports an error message. -/
theorem renameImage_error_handling_witness :
    renameImage [("/d/cat.jpg", 7)] "/d/cat.jpg"
        (.error "API request failed: Service Unavailable") none 3 =
      some ({ success := false, oldName := basename "/d/cat.jpg",
              newName := none,
              error := some "API request failed: Service Unavailable" },
            [("/d/cat.jpg", 7)])
    ∧ ([("/d/cat.jpg", 7)] : Fs) = [("/d/cat.jpg", 7)]
    ∧ (Option.some "API request failed: Service Unavailable").isSome = true := by
  have h := renameImage_error_handling [("/d/cat.jpg", 7)] "/d/cat.jpg"
    (.error "API request failed: Service Unavailable") none 3
  refine ⟨h.2.1 "API request failed: Service Unavailable" rfl, rfl, ?_⟩
  have h2 := h.1 _ _ (h.2.1 "API request failed: Service Unavailable" rfl) rfl
  exact h2.2


/-! Supporting lemmas about the sanitizer (claim C2). -/

theorem noDoubleSpaceB_cons_of_not_space {c : Char} (hc : (c = ' ') = False)
    {l : List Char} (hl : noDoubleSpaceB l = true) :
    noDoubleSpaceB (c :: l) = true := by
  cases l with
  | nil => rfl
  | cons x xs => simp [noDoubleSpaceB, hc, hl]

theorem noDoubleSpaceB_tail {c : Char} {l : List Char}
    (h : noDoubleSpaceB (c :: l) = true) : noDoubleSpaceB l = true := by
  cases l with
  | nil => rfl
  | cons x xs =>
    simp only [noDoubleSpaceB, Bool.and_eq_true] at h
    exact h.2

theorem space_isJsSpace : isJsSpace ' ' = true := by decide

theorem collapseWs_cons_not_space {c : Char} (hc : isJsSpace c = false)
    (cs : List Char) : collapseWs (c :: cs) = c :: collapseWs cs := by
  simp [collapseWs, hc]

theorem collapseWs_noDoubleSpace : ∀ l : List Char,
    noDoubleSpaceB (collapseWs l) = true := by
  intro l
  induction l with
  | nil => rfl
  | cons c cs ih =>
    by_cases hc : isJsSpace c = true
    · cases cs with
      | nil => simp [collapseWs, hc]; rfl
      | cons c2 cs2 =>
        by_cases h2 : isJsSpace c2 = true
        · simpa [collapseWs, hc, h2] using ih
        · have h2f : isJsSpace c2 = false := by simpa using h2
          have hrw : collapseWs (c :: c2 :: cs2) = ' ' :: collapseWs (c2 :: cs2) := by
            simp [collapseWs, hc, h2f]
          rw [hrw, collapseWs_cons_not_space h2f]
          have hc2 : (c2 = ' ') = False := by
            simp only [eq_iff_iff, iff_false]
            intro hcc
            rw [hcc] at h2f
            exact absurd h2f (by simp [space_isJsSpace])
          rw [collapseWs_cons_not_space h2f] at ih
          rw [show noDoubleSpaceB (' ' :: c2 :: collapseWs cs2) =
            (!(' ' = ' ' && c2 = ' ') && noDoubleSpaceB (c2 :: collapseWs cs2))
            from rfl]
          simp [hc2, ih]
    · have hcf : isJsSpace c = false := by simpa using hc
      rw [collapseWs_cons_not_space hcf]
      have hcs : (c = ' ') = False := by
        simp only [eq_iff_iff, iff_false]
        intro hcc
        rw [hcc] at hcf
        exact absurd hcf (by simp [space_isJsSpace])
      exact noDoubleSpaceB_cons_of_not_space hcs ih

theorem noDoubleSpaceB_dropWhile (p : Char → Bool) :
    ∀ l, noDoubleSpaceB l = true → noDoubleSpaceB (l.dropWhile p) = true := by
  intro l
  induction l with
  | nil => intro h; exact h
  | cons c cs ih =>
    intro h
    by_cases hc : p c = true
    · rw [List.dropWhile_cons_of_pos hc]
      exact ih (noDoubleSpaceB_tail h)
    · rw [List.dropWhile_cons_of_neg hc]
      exact h

theorem dropTrailingWs_head (c : Char) (cs : List Char)
    (h : dropTrailingWs (c :: cs) ≠ []) :
    (dropTrailingWs (c :: cs)).head? = some c := by
  simp only [dropTrailingWs] at h ⊢
  cases hinner : dropTrailingWs cs with
  | nil =>
    rw [hinner] at h
    by_cases hsp : isJsSpace c = true
    · simp [hsp] at h
    · simp [hsp]
  | cons x xs => rfl

theorem noDoubleSpaceB_dropTrailingWs :
    ∀ l, noDoubleSpaceB l = true → noDoubleSpaceB (dropTrailingWs l) = true := by
  intro l
  induction l with
  | nil => intro h; exact h
  | cons c cs ih =>
    intro h
    simp only [dropTrailingWs]
    cases hinner : dropTrailingWs cs with
    | nil =>
      by_cases hsp : isJsSpace c = true
      · rw [if_pos hsp]; rfl
      · rw [if_neg hsp]; rfl
    | cons x xs =>
      have htail := ih (noDoubleSpaceB_tail h)
      rw [hinner] at htail
      cases cs with
      | nil => simp [dropTrailingWs] at hinner
      | cons c2 cs2 =>
        have hx : x = c2 := by
          have hh := dropTrailingWs_head c2 cs2 (by rw [hinner]; simp)
          rw [hinner] at hh
          simpa using hh
        subst hx
        simp only [noDoubleSpaceB, Bool.and_eq_true] at h ⊢
        exact ⟨h.1, htail⟩

theorem dropTrailingWs_getLast_not_space :
    ∀ l c, (dropTrailingWs l).getLast? = some c → isJsSpace c = false := by
  intro l
  induction l with
  | nil => intro c h; simp [dropTrailingWs] at h
  | cons c0 cs ih =>
    intro c h
    simp only [dropTrailingWs] at h
    cases hinner : dropTrailingWs cs with
    | nil =>
      rw [hinner] at h
      by_cases hsp : isJsSpace c0 = true
      · rw [if_pos hsp] at h
        simp at h
      · rw [if_neg hsp] at h
        simp only [List.getLast?_singleton, Option.some.injEq] at h
        rw [← h]
        simpa using hsp
    | cons x xs =>
      rw [hinner] at h
      rw [List.getLast?_cons_cons] at h
      rw [← hinner] at h
      exact ih c h

theorem noDoubleSpaceB_take :
    ∀ n (l : List Char), noDoubleSpaceB l = true → noDoubleSpaceB (l.take n) = true := by
  intro n
  induction n with
  | zero => intro l _; rfl
  | succ m ih =>
    intro l h
    cases l with
    | nil => rfl
    | cons c cs =>
      rw [List.take_succ_cons]
      cases cs with
      | nil => simp [List.take_nil]; rfl
      | cons c2 cs2 =>
        cases m with
        | zero => rfl
        | succ m2 =>
          rw [List.take_succ_cons]
          simp only [noDoubleSpaceB, Bool.and_eq_true] at h ⊢
          refine ⟨h.1, ?_⟩
          have := ih (c2 :: cs2) h.2
          rwa [List.take_succ_cons] at this

theorem all_of_sublist {p : Char → Bool} {l l₂ : List Char}
    (hsub : List.Sublist l l₂) (h : l₂.all p = true) : l.all p = true := by
  simp only [List.all_eq_true] at h ⊢
  intro x hx
  exact h x (hsub.subset hx)

theorem dropTrailingWs_sublist : ∀ l : List Char, List.Sublist (dropTrailingWs l) l := by
  intro l
  induction l with
  | nil => exact List.Sublist.refl []
  | cons c cs ih =>
    simp only [dropTrailingWs]
    cases hinner : dropTrailingWs cs with
    | nil =>
      by_cases hsp : isJsSpace c = true
      · rw [if_pos hsp]
        exact List.nil_sublist _
      · rw [if_neg hsp]
        exact (List.nil_sublist cs).cons₂ c
    | cons x xs =>
      show List.Sublist (c :: (x :: xs)) (c :: cs)
      rw [hinner] at ih
      exact ih.cons₂ c

theorem collapseWs_all_allowed : ∀ l : List Char,
    l.all isAllowedChar = true → (collapseWs l).all isAllowedChar = true := by
  intro l
  induction l with
  | nil => intro h; exact h
  | cons c cs ih =>
    intro h
    simp only [List.all_cons, Bool.and_eq_true] at h
    by_cases hc : isJsSpace c = true
    · cases cs with
      | nil => simp [collapseWs, hc]; decide
      | cons c2 cs2 =>
        by_cases h2 : isJsSpace c2 = true
        · simpa [collapseWs, hc, h2] using ih h.2
        · have h2f : isJsSpace c2 = false := by simpa using h2
          have hrw : collapseWs (c :: c2 :: cs2) = ' ' :: collapseWs (c2 :: cs2) := by
            simp [collapseWs, hc, h2f]
          rw [hrw]
          simp only [List.all_cons, Bool.and_eq_true]
          exact ⟨by decide, ih h.2⟩
    · have hcf : isJsSpace c = false := by simpa using hc
      rw [collapseWs_cons_not_space hcf]
      simp only [List.all_cons, Bool.and_eq_true]
      exact ⟨h.1, ih h.2⟩

theorem dropWhile_head_not (p : Char → Bool) :
    ∀ (l : List Char) (c : Char), (l.dropWhile p).head? = some c → p c = false := by
  intro l
  induction l with
  | nil => intro c h; simp at h
  | cons x xs ih =>
    intro c h
    by_cases hx : p x = true
    · rw [List.dropWhile_cons_of_pos hx] at h
      exact ih c h
    · rw [List.dropWhile_cons_of_neg hx] at h
      simp only [List.head?_cons, Option.some.injEq] at h
      rw [← h]
      simpa using hx


/-- Head of a nonempty prefix agrees with the head of the list. -/
theorem take_head? (n : Nat) (l : List Char) (hn : 0 < n) :
    (l.take n).head? = l.head? := by
  cases l with
  | nil => simp
  | cons x xs =>
    cases n with
    | zero => omega
    | succ m => rw [List.take_succ_cons]; rfl

/-! Claim C2: shape of the sanitizer output. -/

/-- C2 counterexample: on the input of ninety-nine letters, a space and
one letter, the sanitizer strips nothing, trims nothing, and the final
truncation to one hundred characters cuts directly after the space, so
the output ends in a space, refuting the claimed absence of trailing
spaces. -/
theorem sanitizeFilename_trailing_space_counterexample :
    (sanitizeFilename ⟨List.replicate 99 'a' ++ [' ', 'b']⟩).data.getLast?
      = some ' ' := by decide

/-- C2 (amended): for every input the sanitizer output consists only of
characters from `[A-Za-z0-9 _-]`, has length at most one hundred,
contains no two consecutive spaces and never begins with a space; the
truncation applied after trimming can however leave one trailing space,
and only when the output was cut at exactly one hundred characters. -/
theorem sanitizeFilename_spec (s : String) :
    (sanitizeFilename s).data.all isAllowedChar = true
    ∧ (sanitizeFilename s).data.length ≤ 100
    ∧ noDoubleSpaceB (sanitizeFilename s).data = true
    ∧ (∀ c, (sanitizeFilename s).data.head? = some c → ¬(c = ' '))
    ∧ (∀ c, (sanitizeFilename s).data.getLast? = some c → c = ' ' →
        (sanitizeFilename s).data.length = 100) := by
  have hout : (sanitizeFilename s).data =
      (dropTrailingWs ((collapseWs (s.data.filter isAllowedChar)).dropWhile
        isJsSpace)).take 100 := rfl
  set F := s.data.filter isAllowedChar with hF
  set CW := collapseWs F with hCW
  set M := CW.dropWhile isJsSpace with hM
  set L := dropTrailingWs M with hL
  have hallF : F.all isAllowedChar = true := by
    simp only [hF, List.all_eq_true]
    intro x hx
    exact (List.mem_filter.mp hx).2
  have hallL : L.all isAllowedChar = true :=
    all_of_sublist (dropTrailingWs_sublist M)
      (all_of_sublist (List.dropWhile_sublist _)
        (collapseWs_all_allowed F hallF))
  refine ⟨?_, ?_, ?_, ?_, ?_⟩
  · rw [hout]
    exact all_of_sublist (List.take_sublist 100 L) hallL
  · rw [hout, List.length_take]
    exact Nat.min_le_left 100 L.length
  · rw [hout]
    exact noDoubleSpaceB_take 100 L
      (noDoubleSpaceB_dropTrailingWs M
        (noDoubleSpaceB_dropWhile isJsSpace CW (collapseWs_noDoubleSpace F)))
  · intro c hc
    rw [hout, take_head? 100 L (by omega)] at hc
    cases hMshape : M with
    | nil =>
      rw [hL, hMshape] at hc
      simp [dropTrailingWs] at hc
    | cons m ms =>
      have hLne : L ≠ [] := by
        intro hnil
        rw [hnil] at hc
        simp at hc
      have hhead : L.head? = some m := by
        rw [hL, hMshape]
        exact dropTrailingWs_head m ms (by rw [← hMshape, ← hL]; exact hLne)
      rw [hhead] at hc
      have hm : isJsSpace m = false := by
        refine dropWhile_head_not isJsSpace CW m ?_
        rw [← hM, hMshape]
        rfl
      injection hc with hc
      intro hsp
      rw [hc, hsp] at hm
      exact absurd hm (by simp [space_isJsSpace])
  · intro c hlast hsp
    rw [hout]
    by_cases hlen : L.length ≤ 100
    · rw [hout, List.take_of_length_le hlen] at hlast
      have := dropTrailingWs_getLast_not_space M c hlast
      rw [hsp] at this
      exact absurd this (by simp [space_isJsSpace])
    · rw [List.length_take]
      omega

/-- Witness for C2 at the truncating input: the trailing space does
occur, and the theorem then forces the output length to be exactly one
hundred. -/
theorem sanitizeFilename_spec_witness :
    (sanitizeFilename ⟨List.replicate 99 'a' ++ [' ', 'b']⟩).data.length = 100 := by
  have h := sanitizeFilename_spec ⟨List.replicate 99 'a' ++ [' ', 'b']⟩
  exact h.2.2.2.2 ' ' (by decide) rfl


/-! Claim C1: behaviour when the suggestion equals the current name. -/

/-- C1: evaluation of the orchestrator at the idempotence scenario of
the specification. The file exists at `/d/cat.jpg`, the model suggestion
`cat` sanitizes to exactly the current base name, and the extension is
already lowercase; the collision probe nevertheless counts the original
file itself as occupied, so the code renames the file to `cat_1.jpg`
and reports an ordinary success with `newName` different from `oldName`
and no unchanged marker, mutating the filesystem. -/
theorem renameImage_renames_when_name_already_correct :
    sanitizeFilename "cat" = "cat"
    ∧ Fs.existsb [("/d/cat.jpg", 7)] "/d/cat.jpg" = true
    ∧ renameImage [("/d/cat.jpg", 7)] "/d/cat.jpg" (.ok "cat") none 3
      = some ({ success := true, oldName := "cat.jpg",
                newName := some "cat_1.jpg", error := none },
              [("/d/cat_1.jpg", 7)]) := by decide

/-! Supporting lemmas about the orchestrator and the batch loop. -/

theorem renameImage_oldName (fs : Fs) (p : String)
    (nameRes : Except String String) (renameErr : Option String) (fuel : Nat) :
    ∀ res fs₁, renameImage fs p nameRes renameErr fuel = some (res, fs₁) →
      res.oldName = basename p := by
  intro res fs₁ h
  simp only [renameImage] at h
  split at h
  · rw [Option.some.injEq, Prod.mk.injEq] at h
    rw [← h.1]
  · split at h
    · rw [Option.some.injEq, Prod.mk.injEq] at h
      rw [← h.1]
    · split at h
      · exact absurd h (by simp)
      · split at h
        · rw [Option.some.injEq, Prod.mk.injEq] at h
          rw [← h.1]
        · split at h
          · rw [Option.some.injEq, Prod.mk.injEq] at h
            rw [← h.1]
          · rw [Option.some.injEq, Prod.mk.injEq] at h
            rw [← h.1]

theorem renameImage_failure_frame (fs : Fs) (p : String)
    (nameRes : Except String String) (renameErr : Option String) (fuel : Nat) :
    ∀ res fs₁, renameImage fs p nameRes renameErr fuel = some (res, fs₁) →
      res.success = false → fs₁ = fs := by
  intro res fs₁ h hfail
  simp only [renameImage] at h
  split at h
  · rw [Option.some.injEq, Prod.mk.injEq] at h
    exact h.2.symm
  · split at h
    · rw [Option.some.injEq, Prod.mk.injEq] at h
      exact h.2.symm
    · split at h
      · exact absurd h (by simp)
      · split at h
        · rw [Option.some.injEq, Prod.mk.injEq] at h
          rw [← h.1] at hfail
          simp at hfail
        · split at h
          · rw [Option.some.injEq, Prod.mk.injEq] at h
            exact h.2.symm
          · rw [Option.some.injEq, Prod.mk.injEq] at h
            rw [← h.1] at hfail
            simp at hfail

theorem countSuccess_cons (r : RenameResult) (rs : List RenameResult) :
    countSuccess (r :: rs) = (if r.success then 1 else 0) + countSuccess rs := by
  simp only [countSuccess, List.filter]
  cases hr : r.success with
  | false => simp
  | true => simp [List.length_cons, Nat.add_comm]

theorem set_append_cons {α : Type} (l₁ : List α) (b x : α) (l₂ : List α) :
    (l₁ ++ b :: l₂).set l₁.length x = l₁ ++ x :: l₂ := by
  induction l₁ with
  | nil => rfl
  | cons a as ih =>
    show a :: (as ++ b :: l₂).set as.length x = a :: (as ++ x :: l₂)
    rw [ih]

theorem processLoop_none (fuel : Nat) :
    ∀ (ts : List BatchTask) (i : Nat) (base : List ProcessingResult)
      (fs : Fs) (cnt : Nat),
      runTasks fuel ts fs = none →
      processLoop fuel ts i base fs cnt = none := by
  intro ts
  induction ts with
  | nil =>
    intro i base fs cnt h
    simp [runTasks] at h
  | cons t ts ih =>
    intro i base fs cnt h
    simp only [runTasks] at h
    split at h
    · rename_i heq
      simp only [processLoop, heq]
    · rename_i res fs₁ heq
      split at h
      · rename_i hrt
        simp only [processLoop, heq]
        exact ih (i + 1)
          ((base.set i (markProcessing (base.getD i (initPending t)))).set i
            (toProcessing res)) fs₁ (cnt + if res.success then 1 else 0) hrt
      · simp at h

theorem processLoop_eq_runTasks (fuel : Nat) :
    ∀ (ts : List BatchTask) (i : Nat) (base : List ProcessingResult)
      (fs : Fs) (cnt : Nat) (rl : List RenameResult) (fs₂ : Fs),
      runTasks fuel ts fs = some (rl, fs₂) →
      processLoop fuel ts i base fs cnt =
        some (overlay base i rl, fs₂, cnt + countSuccess rl) := by
  intro ts
  induction ts with
  | nil =>
    intro i base fs cnt rl fs₂ h
    simp only [runTasks, Option.some.injEq, Prod.mk.injEq] at h
    obtain ⟨h1, h2⟩ := h
    subst h1
    subst h2
    simp [processLoop, overlay, countSuccess]
  | cons t ts ih =>
    intro i base fs cnt rl fs₂ h
    simp only [runTasks] at h
    split at h
    · simp at h
    · rename_i res fs₁ heq
      split at h
      · simp at h
      · rename_i rs fs₃ hrt
        simp only [Option.some.injEq, Prod.mk.injEq] at h
        obtain ⟨h1, h2⟩ := h
        subst h2
        rw [← h1]
        simp only [processLoop, heq]
        rw [List.set_set]
        simp only [overlay, countSuccess_cons, ← Nat.add_assoc]
        exact ih (i + 1) (base.set i (toProcessing res)) fs₁
          (cnt + if res.success then 1 else 0) rs _ hrt

theorem runTasks_length (fuel : Nat) :
    ∀ (ts : List BatchTask) (fs : Fs) (rl : List RenameResult) (fs₂ : Fs),
      runTasks fuel ts fs = some (rl, fs₂) → rl.length = ts.length := by
  intro ts
  induction ts with
  | nil =>
    intro fs rl fs₂ h
    simp only [runTasks, Option.some.injEq, Prod.mk.injEq] at h
    rw [← h.1]
    rfl
  | cons t ts ih =>
    intro fs rl fs₂ h
    simp only [runTasks] at h
    split at h
    · simp at h
    · rename_i res fs₁ heq
      split at h
      · simp at h
      · rename_i rs fs₃ hrt
        simp only [Option.some.injEq, Prod.mk.injEq] at h
        rw [← h.1]
        simp [ih fs₁ rs fs₃ hrt]

theorem runTasks_get_oldName (fuel : Nat) :
    ∀ (ts : List BatchTask) (fs : Fs) (rl : List RenameResult) (fs₂ : Fs),
      runTasks fuel ts fs = some (rl, fs₂) →
      ∀ i (hi : i < rl.length) (hi2 : i < ts.length),
        (rl.get ⟨i, hi⟩).oldName = basename (ts.get ⟨i, hi2⟩).path := by
  intro ts
  induction ts with
  | nil =>
    intro fs rl fs₂ h i hi hi2
    exact absurd hi2 (by simp)
  | cons t ts ih =>
    intro fs rl fs₂ h i hi hi2
    simp only [runTasks] at h
    split at h
    · simp at h
    · rename_i res fs₁ heq
      split at h
      · simp at h
      · rename_i rs fs₃ hrt
        simp only [Option.some.injEq, Prod.mk.injEq] at h
        obtain ⟨h1, h2⟩ := h
        subst h1
        cases i with
        | zero =>
          simpa using renameImage_oldName fs t.path t.nameRes t.renameErr fuel
            res fs₁ heq
        | succ j =>
          have hj : j < rs.length := by
            simp at hi
            omega
          have hj2 : j < ts.length := by
            simp at hi2
            omega
          simpa using ih fs₁ rs fs₃ hrt j hj hj2

theorem overlay_append :
    ∀ (rl : List RenameResult) (base₁ base₂ : List ProcessingResult),
      base₂.length = rl.length →
      overlay (base₁ ++ base₂) base₁.length rl = base₁ ++ rl.map toProcessing := by
  intro rl
  induction rl with
  | nil =>
    intro base₁ base₂ h
    have : base₂ = [] := List.length_eq_zero.mp h
    subst this
    simp [overlay]
  | cons r rs ih =>
    intro base₁ base₂ h
    cases base₂ with
    | nil => simp at h
    | cons b bs =>
      simp only [overlay]
      rw [set_append_cons]
      have h₂ : bs.length = rs.length := by
        simp at h
        omega
      have hmain := ih (base₁ ++ [toProcessing r]) bs h₂
      rw [List.append_assoc] at hmain
      simp only [List.singleton_append] at hmain
      have hlen : (base₁ ++ [toProcessing r]).length = base₁.length + 1 := by
        simp
      rw [hlen] at hmain
      rw [hmain]
      simp

/-! Claim C3: the batch runner never drops, reorders or duplicates. -/

/-- C3: a completed batch produces exactly one outcome per task,
positionally aligned with the input: the results list of `processImages`
is the per-task sequential fold `runTasks` mapped to presentation
entries, with one entry per task and the entry at position `i` reporting
task `i`; and a failing task leaves the filesystem untouched, so the
remaining tasks of the batch are processed exactly as they would have
been on the same filesystem, none of them blocked. -/
theorem processImages_batch_invariants (fuel : Nat) (tasks : List BatchTask) (fs : Fs) :
    (∀ results fs₂ cnt,
      processImages fuel tasks fs = some (results, fs₂, cnt) →
      ∃ rl, runTasks fuel tasks fs = some (rl, fs₂) ∧
        results = rl.map toProcessing ∧
        results.length = tasks.length ∧
        ∀ i (hi : i < rl.length) (hi2 : i < tasks.length),
          (rl.get ⟨i, hi⟩).oldName = basename (tasks.get ⟨i, hi2⟩).path)
    ∧ (∀ (t : BatchTask) (ts : List BatchTask) res fs₁,
        renameImage fs t.path t.nameRes t.renameErr fuel = some (res, fs₁) →
        res.success = false →
        runTasks fuel (t :: ts) fs =
          (runTasks fuel ts fs).map (fun q => (res :: q.1, q.2))) := by
  constructor
  · intro results fs₂ cnt h
    cases hrt : runTasks fuel tasks fs with
    | none =>
      rw [processImages, processLoop_none fuel tasks 0 (tasks.map initPending)
        fs 0 hrt] at h
      simp at h
    | some q =>
      obtain ⟨rl, fs₃⟩ := q
      rw [processImages, processLoop_eq_runTasks fuel tasks 0
        (tasks.map initPending) fs 0 rl fs₃ hrt] at h
      simp only [Option.some.injEq, Prod.mk.injEq] at h
      obtain ⟨hres, hfs, hcnt⟩ := h
      have hlen : rl.length = tasks.length := runTasks_length fuel tasks fs rl fs₃ hrt
      have hov : overlay (tasks.map initPending) 0 rl = rl.map toProcessing := by
        have := overlay_append rl [] (tasks.map initPending)
          (by simp [hlen])
        simpa using this
    
      refine ⟨rl, ?_, ?_, ?_, ?_⟩
      · rw [hfs]
      · rw [← hres, hov]
      · rw [← hres, hov, List.length_map, hlen]
      · exact runTasks_get_oldName fuel tasks fs rl fs₃ hrt
  · intro t ts res fs₁ heq hfail
    have hfs : fs₁ = fs :=
      renameImage_failure_frame fs t.path t.nameRes t.renameErr fuel res fs₁
        heq hfail
    simp only [runTasks, heq, hfs]
    cases hrt : runTasks fuel ts fs with
    | none => rfl
    | some q => rfl

/-- Witness for C3 at a concrete two-task batch whose first task fails
with a network error: the second task is still processed and succeeds,
and the outcomes line up with the tasks. -/
theorem processImages_batch_invariants_witness :
    ∃ rl,
      runTasks 3
        [⟨"/d/a.png", Except.error "API request failed: boom", none⟩,
         ⟨"/d/b.png", Except.ok "Red Barn", none⟩]
        [("/d/a.png", 1), ("/d/b.png", 2)]
        = some (rl, [("/d/a.png", 1), ("/d/Red Barn.png", 2)]) ∧
      ([{ oldName := "a.png", newName := none, status := Status.error,
          error := some "API request failed: boom" },
        { oldName := "b.png", newName := some "Red Barn.png",
          status := Status.success, error := none }] : List ProcessingResult)
        = rl.map toProcessing ∧
      ([{ oldName := "a.png", newName := none, status := Status.error,
          error := some "API request failed: boom" },
        { oldName := "b.png", newName := some "Red Barn.png",
          status := Status.success, error := none }] : List ProcessingResult).length
        = ([⟨"/d/a.png", Except.error "API request failed: boom", none⟩,
            ⟨"/d/b.png", Except.ok "Red Barn", none⟩] : List BatchTask).length ∧
      ∀ i (hi : i < rl.length)
        (hi2 : i < ([⟨"/d/a.png", Except.error "API request failed: boom", none⟩,
                     ⟨"/d/b.png", Except.ok "Red Barn", none⟩] : List BatchTask).length),
        (rl.get ⟨i, hi⟩).oldName =
          basename (([⟨"/d/a.png", Except.error "API request failed: boom", none⟩,
                      ⟨"/d/b.png", Except.ok "Red Barn", none⟩] : List BatchTask).get
            ⟨i, hi2⟩).path :=
  (processImages_batch_invariants 3
    [⟨"/d/a.png", Except.error "API request failed: boom", none⟩,
     ⟨"/d/b.png", Except.ok "Red Barn", none⟩]
    [("/d/a.png", 1), ("/d/b.png", 2)]).1
    [{ oldName := "a.png", newName := none, status := Status.error,
       error := some "API request failed: boom" },
     { oldName := "b.png", newName := some "Red Barn.png",
       status := Status.success, error := none }]
    [("/d/a.png", 1), ("/d/Red Barn.png", 2)] 1 (by decide)

/-! Claim C8: the success tally. -/

/-- C8: the tally of a completed batch counts exactly the outcomes
whose `success` flag is true — the counter is incremented on the
`success` flag alone, so an outcome flagged successful with the
unchanged marker counts exactly like a genuine rename — and the total
reported beside it is the number of input tasks. -/
theorem processImages_tally (fuel : Nat) (tasks : List BatchTask) (fs : Fs) :
    ∀ results fs₂ cnt,
      processImages fuel tasks fs = some (results, fs₂, cnt) →
      ∃ rl, runTasks fuel tasks fs = some (rl, fs₂) ∧
        cnt = (rl.filter (fun r => r.success)).length ∧
        results.length = tasks.length := by
  intro results fs₂ cnt h
  cases hrt : runTasks fuel tasks fs with
  | none =>
    rw [processImages, processLoop_none fuel tasks 0 (tasks.map initPending)
      fs 0 hrt] at h
    simp at h
  | some q =>
    obtain ⟨rl, fs₃⟩ := q
    rw [processImages, processLoop_eq_runTasks fuel tasks 0
      (tasks.map initPending) fs 0 rl fs₃ hrt] at h
    simp only [Option.some.injEq, Prod.mk.injEq] at h
    obtain ⟨hres, hfs, hcnt⟩ := h
    have hlen : rl.length = tasks.length := runTasks_length fuel tasks fs rl fs₃ hrt
    have hov : overlay (tasks.map initPending) 0 rl = rl.map toProcessing := by
      have := overlay_append rl [] (tasks.map initPending) (by simp [hlen])
      simpa using this
    refine ⟨rl, by rw [hfs], ?_, ?_⟩
    · rw [← hcnt]
      simp [countSuccess]
    · rw [← hres, hov, List.length_map, hlen]

/-- Witness for C8: in a two-task batch with one failure and one
successful rename, the tally is one success out of two tasks. -/
theorem processImages_tally_witness :
    ∃ rl,
      runTasks 3
        [⟨"/e/a.png", Except.error "boom", none⟩,
         ⟨"/e/b.png", Except.ok "Red Barn", none⟩]
        [("/e/a.png", 1), ("/e/b.png", 2)]
        = some (rl, [("/e/a.png", 1), ("/e/Red Barn.png", 2)]) ∧
      1 = (rl.filter (fun r => r.success)).length ∧
      ([{ oldName := "a.png", newName := none, status := Status.error,
          error := some "boom" },
        { oldName := "b.png", newName := some "Red Barn.png",
          status := Status.success, error := none }] : List ProcessingResult).length
        = ([⟨"/e/a.png", Except.error "boom", none⟩,
            ⟨"/e/b.png", Except.ok "Red Barn", none⟩] : List BatchTask).length :=
  processImages_tally 3
    [⟨"/e/a.png", Except.error "boom", none⟩,
     ⟨"/e/b.png", Except.ok "Red Barn", none⟩]
    [("/e/a.png", 1), ("/e/b.png", 2)]
    [{ oldName := "a.png", newName := none, status := Status.error,
       error := some "boom" },
     { oldName := "b.png", newName := some "Red Barn.png",
       status := Status.success, error := none }]
    [("/e/a.png", 1), ("/e/Red Barn.png", 2)] 1 (by decide)


end LmStudio
